import Mathlib

/-!
Albert launcher: root directories, indexer restart and query handling

A shallow embedding of `src/plugins/applications/src/extension.cpp` and
`src/plugins/chromebookmarks/src/extension.cpp`.

* A `QString` is a list of characters; `startsWith` and `contains` are the
  Qt string and list operations of the same name.
* What `QFileInfo` answers about a path (its absolute form, whether it exists,
  whether it is a directory) comes from the file system, which is a parameter
  `fs` of every operation that consults it.
* A `void` member function is a function from the object's state to its next
  state.  Signals that are emitted, message boxes that are executed and values
  written to `QSettings` are recorded in the state.
-/

/-- A Qt string, as the sequence of its characters. -/
abbrev QString := List Char

/-- The answer of `QString::startsWith`: `t` is an initial segment of `s`. -/
def QString.startsWith (s t : QString) : Bool := t.isPrefixOf s

/-- The answers of a `QFileInfo` object built for some path. -/
structure QFileInfo where
  absoluteFilePath : QString
  «exists» : Bool
  isDir : Bool
  deriving DecidableEq, Repr

/-- The icon of a message box. -/
inductive Icon where
  | Critical
  | Warning
  deriving DecidableEq, Repr

/-- A message box that has been executed: icon, title and text. -/
structure QMessageBox where
  icon : Icon
  title : QString
  text : QString
  deriving DecidableEq, Repr

namespace Applications

/-- The part of `Applications::Extension` that the root directory operations
read and write.  `rootDirsChanged` lists the payloads of the emitted signal,
oldest first; `dialogs` lists the executed message boxes, oldest first;
`settingsPaths` is the value stored under the key `paths`;
`timerConnected` and `settingsConnected` tell whether the constructor has
already connected the signal to the update delay timer and to the settings
writer; `timerStarts` counts the calls of `QTimer::start`. -/
structure Extension where
  rootDirs_ : List QString
  rootDirsChanged : List (List QString)
  dialogs : List QMessageBox
  settingsPaths : Option (List QString)
  timerConnected : Bool
  settingsConnected : Bool
  timerStarts : Nat
  deriving DecidableEq, Repr

namespace Extension

/-- Executes a message box. -/
def exec (s : Extension) (box : QMessageBox) : Extension :=
  { s with dialogs := s.dialogs ++ [box] }

/-- The statement `emit rootDirsChanged(rootDirs_)`: the signal is recorded and
the connected slots run (the timer is restarted, the list is written to the
settings). -/
def emitRootDirsChanged (s : Extension) : Extension :=
  { s with
    rootDirsChanged := s.rootDirsChanged ++ [s.rootDirs_]
    timerStarts := if s.timerConnected then s.timerStarts + 1 else s.timerStarts
    settingsPaths := if s.settingsConnected then some s.rootDirs_ else s.settingsPaths }

/-- The loop of `addDir` that erases every root directory lying below
`absPath`, with a warning for each: the surviving roots and the warnings. -/
def eraseSubDirs (absPath : QString) : List QString → List QString × List QMessageBox
  | [] => ([], [])
  | it :: rest =>
    let r := eraseSubDirs absPath rest
    if it.startsWith (absPath ++ ['/']) then
      (r.1, QMessageBox.mk Icon.Warning "Warning".toList
              (it ++ " is subdirectory of ".toList ++ absPath ++ ". ".toList ++ it
                ++ " will be removed.".toList) :: r.2)
    else (it :: r.1, r.2)

/-- The member function `Applications::Extension::addDir`. -/
def addDir (fs : QString → QFileInfo) (dirPath : QString) (s : Extension) : Extension :=
  let fileInfo := fs dirPath
  let absPath := fileInfo.absoluteFilePath
  if !fileInfo.exists then
    s.exec ⟨Icon.Critical, "Error".toList, absPath ++ " does not exist.".toList⟩
  else if !fileInfo.isDir then
    s.exec ⟨Icon.Critical, "Error".toList, absPath ++ " is not a directory.".toList⟩
  else if s.rootDirs_.contains absPath then
    s.exec ⟨Icon.Critical, "Error".toList, absPath ++ " has already been indexed.".toList⟩
  else
    match s.rootDirs_.find? (fun p => absPath.startsWith (p ++ ['/'])) with
    | some p =>
      s.exec ⟨Icon.Critical, "Error".toList, absPath ++ " is subdirectory of ".toList ++ p⟩
    | none =>
      let r := eraseSubDirs absPath s.rootDirs_
      emitRootDirsChanged
        { s with rootDirs_ := r.1 ++ [absPath], dialogs := s.dialogs ++ r.2 }

/-- The member function `Applications::Extension::removeDir`. -/
def removeDir (fs : QString → QFileInfo) (dirPath : QString) (s : Extension) : Extension :=
  let absPath := (fs dirPath).absoluteFilePath
  if !s.rootDirs_.contains absPath then s
  else emitRootDirsChanged { s with rootDirs_ := s.rootDirs_.filter (fun p => p != absPath) }

/-- The member function `Applications::Extension::restorePaths`;
`standardLocations` is the answer of
`QStandardPaths::standardLocations(QStandardPaths::ApplicationsLocation)`. -/
def restorePaths (fs : QString → QFileInfo) (standardLocations : List QString)
    (s : Extension) : Extension :=
  standardLocations.foldl
    (fun acc path => if (fs path).exists then addDir fs path acc else acc)
    { s with rootDirs_ := [] }

end Extension

end Applications

/-- The names of the directories passed on the way from the file system root
to the absolute path `p`. -/
def pathComponents (p : QString) : List QString :=
  (p.splitOn '/').filter (fun c => c ≠ [])

/-- The directory `r` is a proper ancestor of `p` in the directory hierarchy:
the way to `r` is a strictly shorter initial part of the way to `p`. -/
def isProperAncestor (r p : QString) : Bool :=
  (pathComponents r).isPrefixOf (pathComponents p)
    && decide ((pathComponents r).length < (pathComponents p).length)

/-- A file system holding the directories of a usual installation and the
regular file `/etc/passwd`; every other path is missing. -/
def sampleFs : QString → QFileInfo := fun p =>
  if p ∈ ["/".toList, "/usr".toList, "/usr/share".toList, "/usr/share/applications".toList,
      "/usr/share/applications/extra".toList, "/opt".toList] then ⟨p, true, true⟩
  else if p = "/etc/passwd".toList then ⟨p, true, false⟩
  else ⟨p, false, false⟩

/-- A constructed extension whose root list is `dirs` and whose settings hold
the same list. -/
def constructed (dirs : List QString) : Applications.Extension :=
  ⟨dirs, [], [], some dirs, true, true, 0⟩

/-- The text that `updateIndex` puts on the information label while it waits. -/
def waitingText : QString := "Waiting for indexer to shut down ...".toList

/-- An `Indexer` object on the heap: its identity, the flag that `abort()`
sets, the number of queued connections from its `destroyed` signal to the
extension's `updateIndex`, and whether its `statusInfo` signal is connected to
the label of the configuration widget. -/
structure Indexer where
  id : Nat
  abort_ : Bool
  destroyedToUpdateIndex : Nat
  statusInfoToLabel : Bool
  deriving DecidableEq, Repr

/-- The part of an index-backed extension that `updateIndex` reads and writes.
`heap` holds the `Indexer` objects that are alive; `indexer_` is the guarded
pointer `QPointer<Indexer>`, null as soon as its object is destroyed;
`widget_` is the text of the information label when the configuration widget
exists; `started` lists the runnables passed to `QThreadPool::start`, oldest
first; `eventQueue` counts the queued calls of `updateIndex` that the event
loop has not delivered yet; `nextId` is the identity of the next object
created by `new`. -/
structure IndexerHost where
  heap : List Indexer
  indexer_ : Option Nat
  widget_ : Option QString
  started : List Nat
  eventQueue : Nat
  nextId : Nat
  deriving DecidableEq, Repr

namespace IndexerHost

/-- The answer of `indexer_.isNull()`. -/
def isNull (s : IndexerHost) : Bool :=
  match s.indexer_ with
  | none => true
  | some i => !(s.heap.any (fun o => o.id == i))

/-- The two statements `indexer_->abort()` and
`connect(indexer_.data(), &Indexer::destroyed, this, &Extension::updateIndex, Qt::QueuedConnection)`
applied to the object the pointer refers to. -/
def abortAndDefer (s : IndexerHost) : List Indexer :=
  s.heap.map (fun o =>
    if s.indexer_ = some o.id then
      { o with abort_ := true, destroyedToUpdateIndex := o.destroyedToUpdateIndex + 1 }
    else o)

/-- The branches of `updateIndex`, the same in both extensions. -/
def updateIndexBody (s : IndexerHost) : IndexerHost :=
  if !s.isNull then
    { s with
      heap := s.abortAndDefer
      widget_ := s.widget_.map (fun _ => waitingText) }
  else
    { s with
      heap := s.heap ++ [⟨s.nextId, false, 0, s.widget_.isSome⟩]
      indexer_ := some s.nextId
      started := s.started ++ [s.nextId]
      nextId := s.nextId + 1 }

/-- The destruction of the indexer object `i`: it leaves the heap, the guarded
pointer to it becomes null, and every queued connection of its `destroyed`
signal posts one call of `updateIndex`.  Nothing happens when no such object
is alive. -/
def destroyed (i : Nat) (s : IndexerHost) : IndexerHost :=
  match s.heap.find? (fun o => o.id == i) with
  | none => s
  | some o =>
    { s with
      heap := s.heap.filter (fun x => x.id != i)
      indexer_ := if s.indexer_ = some i then none else s.indexer_
      eventQueue := s.eventQueue + o.destroyedToUpdateIndex }

/-- The steps of the restart protocol: a direct call of `updateIndex`, the
destruction of an indexer object, the delivery of one queued call. -/
inductive Step where
  | call
  | teardown (i : Nat)
  | deliver
  deriving DecidableEq, Repr

/-- One step of the protocol for an extension whose `updateIndex` is `upd`. -/
def next (upd : IndexerHost → IndexerHost) (s : IndexerHost) : Step → IndexerHost
  | Step.call => upd s
  | Step.teardown i => destroyed i s
  | Step.deliver =>
    if s.eventQueue = 0 then s else upd { s with eventQueue := s.eventQueue - 1 }

/-- The state after a sequence of steps. -/
def run (upd : IndexerHost → IndexerHost) (steps : List Step) (s : IndexerHost) : IndexerHost :=
  steps.foldl (next upd) s

/-- An extension before its first call of `updateIndex`; `w` is the label text
of the configuration widget when one exists. -/
def init (w : Option QString) : IndexerHost := ⟨[], none, w, [], 0, 0⟩

end IndexerHost

/-- The member function `Applications::Extension::updateIndex`. -/
def Applications.Extension.updateIndex (s : IndexerHost) : IndexerHost :=
  s.updateIndexBody

/-- The member function `ChromeBookmarks::Extension::updateIndex`. -/
def ChromeBookmarks.Extension.updateIndex (s : IndexerHost) : IndexerHost :=
  s.updateIndexBody

/-- What an extension does to its index lock, its offline index, the settings
and the query session, in the order in which it happens. -/
inductive IndexEvent (Item : Type) where
  | lock
  | unlock
  | search (term : QString)
  | setFuzzy (b : Bool)
  | setValue (key : QString) (b : Bool)
  | addMatch (item : Item) (score : Int)
  deriving DecidableEq, Repr

/-- The loop of `handleQuery` over the items that the search returned. -/
def addMatches {Item : Type} : List Item → List (IndexEvent Item) → List (IndexEvent Item)
  | [], t => t
  | obj :: rest, t => addMatches rest (t ++ [IndexEvent.addMatch obj 0])

/-- The body shared by `handleQuery` of both extensions; `toLower` is
`QString::toLower`, `search` is `offlineIndex_.search`, `searchTerm` is
`query->searchTerm()`. -/
def handleQueryBody {Item : Type} (toLower : QString → QString) (search : QString → List Item)
    (searchTerm : QString) (t : List (IndexEvent Item)) : List (IndexEvent Item) :=
  let t1 := t ++ [IndexEvent.lock]
  let term := toLower searchTerm
  let indexables := search term
  let t2 := t1 ++ [IndexEvent.search term]
  let t3 := t2 ++ [IndexEvent.unlock]
  addMatches indexables t3

/-- The member function `Applications::Extension::handleQuery`. -/
def Applications.Extension.handleQuery {Item : Type} (toLower : QString → QString)
    (search : QString → List Item) (searchTerm : QString) (t : List (IndexEvent Item)) :
    List (IndexEvent Item) :=
  handleQueryBody toLower search searchTerm t

/-- The member function `ChromeBookmarks::Extension::handleQuery`. -/
def ChromeBookmarks.Extension.handleQuery {Item : Type} (toLower : QString → QString)
    (search : QString → List Item) (searchTerm : QString) (t : List (IndexEvent Item)) :
    List (IndexEvent Item) :=
  handleQueryBody toLower search searchTerm t

/-- The member function `Applications::Extension::setFuzzy`; `id` is the
identifier of the extension. -/
def Applications.Extension.setFuzzy {Item : Type} (id : QString) (b : Bool)
    (t : List (IndexEvent Item)) : List (IndexEvent Item) :=
  t ++ [IndexEvent.setValue (id ++ "/".toList ++ "fuzzy".toList) b] ++ [IndexEvent.setFuzzy b]

/-- The member function `ChromeBookmarks::Extension::setFuzzy`. -/
def ChromeBookmarks.Extension.setFuzzy {Item : Type} (id : QString) (b : Bool)
    (t : List (IndexEvent Item)) : List (IndexEvent Item) :=
  t ++ [IndexEvent.lock] ++ [IndexEvent.setValue (id ++ "/".toList ++ "fuzzy".toList) b]
    ++ [IndexEvent.setFuzzy b] ++ [IndexEvent.unlock]

/-- Whether every access to the offline index in a sequence of events (a
search or a write of the fuzzy flag) happens while the index lock is held;
`held` tells whether the lock is held when the sequence begins. -/
def accessesLocked {Item : Type} : Bool → List (IndexEvent Item) → Bool
  | _, [] => true
  | _, IndexEvent.lock :: rest => accessesLocked true rest
  | _, IndexEvent.unlock :: rest => accessesLocked false rest
  | held, IndexEvent.search _ :: rest => held && accessesLocked held rest
  | held, IndexEvent.setFuzzy _ :: rest => held && accessesLocked held rest
  | held, _ :: rest => accessesLocked held rest

/-- The calls of the session's `addMatch` in a sequence of events, in order. -/
def matchesAdded {Item : Type} : List (IndexEvent Item) → List (Item × Int)
  | [] => []
  | IndexEvent.addMatch item score :: rest => (item, score) :: matchesAdded rest
  | _ :: rest => matchesAdded rest

/-- The terms of the searches in a sequence of events, in order. -/
def searchesDone {Item : Type} : List (IndexEvent Item) → List QString
  | [] => []
  | IndexEvent.search term :: rest => term :: searchesDone rest
  | _ :: rest => searchesDone rest

/-- The root list invariant: no entry twice, and no entry that begins with
another entry followed by a slash. -/
def RootsSeparate (dirs : List QString) : Prop :=
  dirs.Nodup ∧ ∀ p ∈ dirs, ∀ q ∈ dirs, q.startsWith (p ++ ['/']) = false

/-- The restart protocol of an extension whose `updateIndex` is `upd`, in every
state `s` reached from a fresh extension by calls of `updateIndex`,
destructions of indexers and deliveries of queued calls: at most one indexer
is alive; when none is alive `updateIndex` starts exactly one; when one is
alive `updateIndex` starts nothing and creates nothing, and leaves that
indexer aborted with its `destroyed` signal connected to `updateIndex`. -/
def SequentialRuns (upd : IndexerHost → IndexerHost) : Prop :=
  ∀ (w : Option QString) (steps : List IndexerHost.Step),
    (IndexerHost.run upd steps (IndexerHost.init w)).heap.length ≤ 1
    ∧ ((IndexerHost.run upd steps (IndexerHost.init w)).heap = [] →
        (upd (IndexerHost.run upd steps (IndexerHost.init w))).started
          = (IndexerHost.run upd steps (IndexerHost.init w)).started
            ++ [(IndexerHost.run upd steps (IndexerHost.init w)).nextId]
        ∧ (upd (IndexerHost.run upd steps (IndexerHost.init w))).heap.length = 1)
    ∧ ((IndexerHost.run upd steps (IndexerHost.init w)).heap ≠ [] →
        (upd (IndexerHost.run upd steps (IndexerHost.init w))).started
          = (IndexerHost.run upd steps (IndexerHost.init w)).started
        ∧ (upd (IndexerHost.run upd steps (IndexerHost.init w))).heap.map Indexer.id
          = (IndexerHost.run upd steps (IndexerHost.init w)).heap.map Indexer.id
        ∧ ∀ o ∈ (upd (IndexerHost.run upd steps (IndexerHost.init w))).heap,
            o.abort_ = true ∧ 1 ≤ o.destroyedToUpdateIndex)

/-- The state in which the first indexer, of identity 0, has just been
started. -/
def firstRun (upd : IndexerHost → IndexerHost) (w : Option QString) : IndexerHost :=
  IndexerHost.run upd [IndexerHost.Step.call] (IndexerHost.init w)

/-- The scenario of `n` calls of `updateIndex` while the indexer 0 runs, the
destruction of that indexer, and the delivery of the `n` queued calls. -/
def restartScenario (n : Nat) : List IndexerHost.Step :=
  List.replicate n IndexerHost.Step.call ++ [IndexerHost.Step.teardown 0]
    ++ List.replicate n IndexerHost.Step.deliver

/-- The states the restart protocol keeps to: no indexer is alive, or exactly
one is and the guarded pointer refers to it. -/
def IndexerHost.Single (s : IndexerHost) : Prop :=
  s.heap = [] ∨ ∃ o, s.heap = [o] ∧ s.indexer_ = some o.id

/-- The conversion of an integer to `bool` in C++: zero becomes `false`, every
other value `true`. -/
def boolOfInt (n : Int) : Bool := n != 0

/-- The promotion of a `bool` to `int` in C++: `false` is 0 and `true` is 1. -/
def intOfBool (b : Bool) : Int := if b then 1 else 0

/-- The static member defined by
`const bool Applications::Extension::UPDATE_DELAY = 60000;`. -/
def Applications.Extension.UPDATE_DELAY : Bool := boolOfInt 60000

/-- The properties of a `QTimer` that the constructor sets: the interval in
milliseconds and the single shot flag. -/
structure QTimer where
  interval : Int
  singleShot : Bool
  deriving DecidableEq, Repr

/-- The member function `QTimer::setInterval(int msec)`. -/
def QTimer.setInterval (t : QTimer) (msec : Int) : QTimer := { t with interval := msec }

/-- The member function `QTimer::setSingleShot(bool singleShot)`. -/
def QTimer.setSingleShot (t : QTimer) (singleShot : Bool) : QTimer :=
  { t with singleShot := singleShot }

/-- The two statements of the constructor of `Applications::Extension` on its
member `updateDelayTimer_`: `setInterval(UPDATE_DELAY)`, whose argument of
type `bool` is promoted to `int`, and `setSingleShot(true)`. -/
def Applications.Extension.ctorUpdateDelayTimer (updateDelayTimer_ : QTimer) : QTimer :=
  (updateDelayTimer_.setInterval (intOfBool Applications.Extension.UPDATE_DELAY)).setSingleShot
    true

open Applications Applications.Extension

/-! ## Root directories: what `addDir` does in each of its branches -/

theorem startsWith_iff (s t : QString) : s.startsWith t = true ↔ t <+: s := by
  unfold QString.startsWith
  exact List.isPrefixOf_iff_prefix

theorem startsWith_self_slash (a : QString) : a.startsWith (a ++ ['/']) = false := by
  cases h : a.startsWith (a ++ ['/'])
  · rfl
  · have hp := (startsWith_iff a (a ++ ['/'])).1 h
    have hl := hp.length_le
    simp at hl

theorem eraseSubDirs_fst (a : QString) (l : List QString) :
    (eraseSubDirs a l).1 = l.filter (fun r => !(r.startsWith (a ++ ['/']))) := by
  induction l with
  | nil => rfl
  | cons it rest ih =>
    by_cases h : it.startsWith (a ++ ['/']) = true
    · simp [eraseSubDirs, h, ih]
    · simp [eraseSubDirs, h, ih]

theorem addDir_notFound (fs : QString → QFileInfo) (d : QString) (s : Extension)
    (h : (fs d).exists = false) :
    addDir fs d s = s.exec ⟨Icon.Critical, "Error".toList,
      (fs d).absoluteFilePath ++ " does not exist.".toList⟩ := by
  simp [addDir, h]

theorem addDir_notADirectory (fs : QString → QFileInfo) (d : QString) (s : Extension)
    (he : (fs d).exists = true) (h : (fs d).isDir = false) :
    addDir fs d s = s.exec ⟨Icon.Critical, "Error".toList,
      (fs d).absoluteFilePath ++ " is not a directory.".toList⟩ := by
  simp [addDir, he, h]

theorem addDir_alreadyIndexed (fs : QString → QFileInfo) (d : QString) (s : Extension)
    (he : (fs d).exists = true) (hd : (fs d).isDir = true)
    (h : (fs d).absoluteFilePath ∈ s.rootDirs_) :
    addDir fs d s = s.exec ⟨Icon.Critical, "Error".toList,
      (fs d).absoluteFilePath ++ " has already been indexed.".toList⟩ := by
  simp [addDir, he, hd, h]

theorem addDir_subdirectory (fs : QString → QFileInfo) (d : QString) (s : Extension)
    (he : (fs d).exists = true) (hd : (fs d).isDir = true)
    (hn : (fs d).absoluteFilePath ∉ s.rootDirs_) (p : QString)
    (h : s.rootDirs_.find? (fun p => (fs d).absoluteFilePath.startsWith (p ++ ['/'])) = some p) :
    addDir fs d s = s.exec ⟨Icon.Critical, "Error".toList,
      (fs d).absoluteFilePath ++ " is subdirectory of ".toList ++ p⟩ := by
  simp [addDir, he, hd, hn, h]

theorem addDir_added (fs : QString → QFileInfo) (d : QString) (s : Extension)
    (he : (fs d).exists = true) (hd : (fs d).isDir = true)
    (hn : (fs d).absoluteFilePath ∉ s.rootDirs_)
    (h : s.rootDirs_.find? (fun p => (fs d).absoluteFilePath.startsWith (p ++ ['/'])) = none) :
    addDir fs d s = emitRootDirsChanged
      { s with
        rootDirs_ := (eraseSubDirs (fs d).absoluteFilePath s.rootDirs_).1
          ++ [(fs d).absoluteFilePath]
        dialogs := s.dialogs ++ (eraseSubDirs (fs d).absoluteFilePath s.rootDirs_).2 } := by
  simp [addDir, he, hd, hn, h]

/-- C1 (the code at the failing input): with the file system root as only root
directory, `/usr` lies strictly below a root, and `addDir` nevertheless adds
it: the root list becomes `/`, `/usr`, the signal is emitted with that list and
no message box is executed. -/
theorem addDir_below_filesystem_root :
    isProperAncestor "/".toList "/usr".toList = true
    ∧ (sampleFs "/usr".toList).exists = true ∧ (sampleFs "/usr".toList).isDir = true
    ∧ (addDir sampleFs "/usr".toList (constructed ["/".toList])).rootDirs_
        = ["/".toList, "/usr".toList]
    ∧ (addDir sampleFs "/usr".toList (constructed ["/".toList])).rootDirsChanged
        = [["/".toList, "/usr".toList]]
    ∧ (addDir sampleFs "/usr".toList (constructed ["/".toList])).dialogs = [] := by
  decide

/-- C2: when the path is an existing directory whose absolute form `p` is not a
root and does not begin with any root followed by a slash, the new root list
is the old one without the roots that begin with `p` and a slash, in their old
order, followed by `p`, and `rootDirsChanged` is emitted once, with that
list. -/
theorem addDir_succeeds (fs : QString → QFileInfo) (d : QString) (s : Extension)
    (he : (fs d).exists = true) (hd : (fs d).isDir = true)
    (hn : (fs d).absoluteFilePath ∉ s.rootDirs_)
    (hsub : ∀ r ∈ s.rootDirs_, (fs d).absoluteFilePath.startsWith (r ++ ['/']) = false) :
    (addDir fs d s).rootDirs_
        = s.rootDirs_.filter (fun r => !(r.startsWith ((fs d).absoluteFilePath ++ ['/'])))
          ++ [(fs d).absoluteFilePath]
    ∧ (addDir fs d s).rootDirsChanged
        = s.rootDirsChanged ++
          [s.rootDirs_.filter (fun r => !(r.startsWith ((fs d).absoluteFilePath ++ ['/'])))
            ++ [(fs d).absoluteFilePath]] := by
  have hf : s.rootDirs_.find? (fun p => (fs d).absoluteFilePath.startsWith (p ++ ['/'])) = none := by
    rw [List.find?_eq_none]
    intro r hr
    simp [hsub r hr]
  rw [addDir_added fs d s he hd hn hf]
  simp [emitRootDirsChanged, eraseSubDirs_fst]

/-- C2 at the scenario of the specification: the roots
`/usr/share/applications` plus `/usr/share` give `/usr/share` alone. -/
theorem addDir_succeeds_witness :
    (addDir sampleFs "/usr/share".toList
        (constructed ["/usr/share/applications".toList])).rootDirs_ = ["/usr/share".toList]
    ∧ (addDir sampleFs "/usr/share".toList
        (constructed ["/usr/share/applications".toList])).rootDirsChanged
        = [["/usr/share".toList]] :=
  have h := addDir_succeeds sampleFs "/usr/share".toList
    (constructed ["/usr/share/applications".toList]) (by decide) (by decide) (by decide)
    (by decide)
  ⟨h.1.trans (by decide), h.2.trans (by decide)⟩

/-- C3: when the path does not exist, or is not a directory, or its absolute
form is already a root, `addDir` leaves the root list as it is and emits no
`rootDirsChanged`. -/
theorem addDir_invalid_unchanged (fs : QString → QFileInfo) (d : QString) (s : Extension)
    (h : (fs d).exists = false ∨ (fs d).isDir = false
      ∨ (fs d).absoluteFilePath ∈ s.rootDirs_) :
    (addDir fs d s).rootDirs_ = s.rootDirs_
    ∧ (addDir fs d s).rootDirsChanged = s.rootDirsChanged := by
  by_cases he : (fs d).exists = true
  · by_cases hd : (fs d).isDir = true
    · rcases h with h | h | h
      · simp [he] at h
      · simp [hd] at h
      · rw [addDir_alreadyIndexed fs d s he hd h]
        exact ⟨rfl, rfl⟩
    · rw [addDir_notADirectory fs d s he (by simpa using hd)]
      exact ⟨rfl, rfl⟩
  · rw [addDir_notFound fs d s (by simpa using he)]
    exact ⟨rfl, rfl⟩

/-- C3 at three paths: a missing one, a regular file, and a root that is
already in the list. -/
theorem addDir_invalid_unchanged_witness :
    (addDir sampleFs "/nowhere".toList (constructed ["/opt".toList])).rootDirs_
        = ["/opt".toList]
    ∧ (addDir sampleFs "/etc/passwd".toList (constructed ["/opt".toList])).rootDirsChanged = []
    ∧ (addDir sampleFs "/opt".toList (constructed ["/opt".toList])).rootDirs_
        = ["/opt".toList] :=
  ⟨(addDir_invalid_unchanged sampleFs "/nowhere".toList (constructed ["/opt".toList])
      (Or.inl (by decide))).1,
   (addDir_invalid_unchanged sampleFs "/etc/passwd".toList (constructed ["/opt".toList])
      (Or.inr (Or.inl (by decide)))).2,
   (addDir_invalid_unchanged sampleFs "/opt".toList (constructed ["/opt".toList])
      (Or.inr (Or.inr (by decide)))).1⟩

/-- C4 (counterexample): a failing call reports through a message box.  Adding
the missing path `/nowhere` changes nothing but the list of executed dialogs,
which receives one critical box; so it is false that failing calls execute no
dialog. -/
theorem addDir_failure_shows_dialog :
    ((addDir sampleFs "/nowhere".toList (constructed [])).dialogs
        = [⟨Icon.Critical, "Error".toList, "/nowhere does not exist.".toList⟩]
      ∧ { addDir sampleFs "/nowhere".toList (constructed []) with dialogs := [] }
        = constructed [])
    ∧ ¬ (∀ (fs : QString → QFileInfo) (d : QString) (s : Extension),
          (addDir fs d s).rootDirsChanged = s.rootDirsChanged →
          (addDir fs d s).dialogs = s.dialogs) := by
  refine ⟨by decide, fun h => ?_⟩
  have h1 := h sampleFs "/nowhere".toList (constructed []) (by decide)
  revert h1
  decide

/-- C4 (amended): a call of `addDir` that emits no `rootDirsChanged` leaves the
root list unchanged and executes exactly one critical message box, whose text
is the absolute path followed by a message that names the cause: the path
does not exist, is not a directory, has already been indexed, or is
subdirectory of a root `p` with which it begins. -/
theorem addDir_failure_dialog (fs : QString → QFileInfo) (d : QString) (s : Extension)
    (hfail : (addDir fs d s).rootDirsChanged = s.rootDirsChanged) :
    (addDir fs d s).rootDirs_ = s.rootDirs_
    ∧ ∃ msg : QString,
        (addDir fs d s).dialogs
          = s.dialogs ++ [⟨Icon.Critical, "Error".toList, (fs d).absoluteFilePath ++ msg⟩]
        ∧ (((fs d).exists = false ∧ msg = " does not exist.".toList)
          ∨ ((fs d).exists = true ∧ (fs d).isDir = false ∧ msg = " is not a directory.".toList)
          ∨ ((fs d).exists = true ∧ (fs d).isDir = true
              ∧ (fs d).absoluteFilePath ∈ s.rootDirs_
              ∧ msg = " has already been indexed.".toList)
          ∨ ((fs d).exists = true ∧ (fs d).isDir = true
              ∧ (fs d).absoluteFilePath ∉ s.rootDirs_
              ∧ ∃ p ∈ s.rootDirs_, (fs d).absoluteFilePath.startsWith (p ++ ['/']) = true
                  ∧ msg = " is subdirectory of ".toList ++ p)) := by
  by_cases he : (fs d).exists = true
  · by_cases hd : (fs d).isDir = true
    · by_cases hn : (fs d).absoluteFilePath ∈ s.rootDirs_
      · rw [addDir_alreadyIndexed fs d s he hd hn]
        exact ⟨rfl, _, rfl, Or.inr (Or.inr (Or.inl ⟨he, hd, hn, rfl⟩))⟩
      · cases hf : s.rootDirs_.find? (fun p => (fs d).absoluteFilePath.startsWith (p ++ ['/'])) with
        | none =>
          rw [addDir_added fs d s he hd hn hf] at hfail
          have hl := congrArg List.length hfail
          simp [emitRootDirsChanged] at hl
        | some p =>
          rw [addDir_subdirectory fs d s he hd hn p hf]
          refine ⟨rfl, " is subdirectory of ".toList ++ p, ?_,
            Or.inr (Or.inr (Or.inr ⟨he, hd, hn, p, List.mem_of_find?_eq_some hf, ?_, rfl⟩))⟩
          · simp [exec, List.append_assoc]
          · simpa using List.find?_some hf
    · have hd2 : (fs d).isDir = false := by simpa using hd
      rw [addDir_notADirectory fs d s he hd2]
      exact ⟨rfl, _, rfl, Or.inr (Or.inl ⟨he, hd2, rfl⟩)⟩
  · have he2 : (fs d).exists = false := by simpa using he
    rw [addDir_notFound fs d s he2]
    exact ⟨rfl, _, rfl, Or.inl ⟨he2, rfl⟩⟩

/-- C4 (amended) at the scenario of the specification: adding
`/usr/share/applications/extra` below the root `/usr/share/applications`
executes the box that names that root. -/
theorem addDir_failure_dialog_witness :
    (addDir sampleFs "/usr/share/applications/extra".toList
        (constructed ["/usr/share/applications".toList])).rootDirs_
      = ["/usr/share/applications".toList]
    ∧ (addDir sampleFs "/usr/share/applications/extra".toList
        (constructed ["/usr/share/applications".toList])).dialogs
      = [⟨Icon.Critical, "Error".toList,
          "/usr/share/applications/extra is subdirectory of /usr/share/applications".toList⟩] :=
  ⟨(addDir_failure_dialog sampleFs "/usr/share/applications/extra".toList
      (constructed ["/usr/share/applications".toList]) (by decide)).1, by decide⟩

/-! ## The restart protocol of the indexer -/

namespace IndexerHost

theorem updateIndexBody_idle (s : IndexerHost) (h : s.heap = []) :
    s.updateIndexBody =
      { s with
        heap := [⟨s.nextId, false, 0, s.widget_.isSome⟩]
        indexer_ := some s.nextId
        started := s.started ++ [s.nextId]
        nextId := s.nextId + 1 } := by
  have hn : s.isNull = true := by
    unfold isNull
    cases s.indexer_ <;> simp [h]
  simp [updateIndexBody, hn, h]

theorem updateIndexBody_alive (s : IndexerHost) (o : Indexer) (h : s.heap = [o])
    (hp : s.indexer_ = some o.id) :
    s.updateIndexBody =
      { s with
        heap := [{ o with abort_ := true, destroyedToUpdateIndex := o.destroyedToUpdateIndex + 1 }]
        widget_ := s.widget_.map (fun _ => waitingText) } := by
  have hn : s.isNull = false := by
    unfold isNull
    simp [hp, h]
  simp [updateIndexBody, hn, abortAndDefer, h, hp]

theorem single_updateIndexBody (s : IndexerHost) (h : s.Single) : s.updateIndexBody.Single := by
  rcases h with h | ⟨o, h, hp⟩
  · rw [updateIndexBody_idle s h]
    exact Or.inr ⟨_, rfl, rfl⟩
  · rw [updateIndexBody_alive s o h hp]
    exact Or.inr ⟨_, rfl, hp⟩

theorem single_destroyed (i : Nat) (s : IndexerHost) (h : s.Single) : (destroyed i s).Single := by
  rcases h with h | ⟨o, h, hp⟩
  · simp [destroyed, h, Single]
  · by_cases hi : o.id = i
    · left
      simp [destroyed, h, hi]
    · right
      refine ⟨o, ?_, ?_⟩
      · simp [destroyed, h, hi]
      · simp [destroyed, h, hi, hp]

theorem single_next (s : IndexerHost) (h : s.Single) (st : Step) :
    (next updateIndexBody s st).Single := by
  cases st with
  | call => exact single_updateIndexBody s h
  | teardown i => exact single_destroyed i s h
  | deliver =>
    show (if s.eventQueue = 0 then s
      else updateIndexBody { s with eventQueue := s.eventQueue - 1 }).Single
    split
    · exact h
    · apply single_updateIndexBody
      rcases h with h | ⟨o, h, hp⟩
      · exact Or.inl h
      · exact Or.inr ⟨o, h, hp⟩

theorem single_run (steps : List Step) (s : IndexerHost) (h : s.Single) :
    (run updateIndexBody steps s).Single := by
  induction steps generalizing s with
  | nil => exact h
  | cons st rest ih => exact ih _ (single_next s h st)

theorem sequentialRuns_body : SequentialRuns updateIndexBody := by
  intro w steps
  have hs : (run updateIndexBody steps (init w)).Single := single_run steps _ (Or.inl rfl)
  generalize run updateIndexBody steps (init w) = s at hs
  rcases hs with h | ⟨o, h, hp⟩
  · refine ⟨by simp [h], fun _ => ?_, fun hne => absurd h hne⟩
    rw [updateIndexBody_idle s h]
    exact ⟨rfl, rfl⟩
  · refine ⟨by simp [h], fun he => ?_, fun _ => ?_⟩
    · simp [h] at he
    · rw [updateIndexBody_alive s o h hp]
      simp [h]

end IndexerHost

/-- C5: in both extensions, in every state reached by calls of `updateIndex`,
destructions of indexers and deliveries of queued calls, at most one indexer
is alive; `updateIndex` starts a new indexer only when none is alive, and
when one is alive it only aborts it and connects its `destroyed` signal to
itself. -/
theorem updateIndex_sequential_runs :
    SequentialRuns Applications.Extension.updateIndex
    ∧ SequentialRuns ChromeBookmarks.Extension.updateIndex :=
  ⟨IndexerHost.sequentialRuns_body, IndexerHost.sequentialRuns_body⟩

namespace IndexerHost

theorem run_append (upd : IndexerHost → IndexerHost) (a b : List Step) (s : IndexerHost) :
    run upd (a ++ b) s = run upd b (run upd a s) := by
  simp [run, List.foldl_append]

theorem run_cons (upd : IndexerHost → IndexerHost) (st : Step) (rest : List Step)
    (s : IndexerHost) : run upd (st :: rest) s = run upd rest (next upd s st) := rfl

theorem run_nil (upd : IndexerHost → IndexerHost) (s : IndexerHost) : run upd [] s = s := rfl

theorem next_teardown (upd : IndexerHost → IndexerHost) (s : IndexerHost) (i : Nat) :
    next upd s (Step.teardown i) = destroyed i s := rfl

theorem next_deliver (upd : IndexerHost → IndexerHost) (s : IndexerHost)
    (h : s.eventQueue ≠ 0) :
    next upd s Step.deliver = upd { s with eventQueue := s.eventQueue - 1 } := by
  simp [next, h]

theorem updateIndexBody_pointed (i : Nat) (a : Bool) (c : Nat) (st : Bool) (w : Option QString)
    (l : List Nat) (q n : Nat) :
    updateIndexBody ⟨[⟨i, a, c, st⟩], some i, w, l, q, n⟩
      = ⟨[⟨i, true, c + 1, st⟩], some i, w.map (fun _ => waitingText), l, q, n⟩ := by
  rw [updateIndexBody_alive _ ⟨i, a, c, st⟩ rfl rfl]

theorem calls_pointed (k i : Nat) (st : Bool) (l : List Nat) (q n : Nat) :
    ∀ (a : Bool) (c : Nat) (w : Option QString),
      run updateIndexBody (List.replicate (k + 1) Step.call)
          ⟨[⟨i, a, c, st⟩], some i, w, l, q, n⟩
        = ⟨[⟨i, true, c + (k + 1), st⟩], some i, w.map (fun _ => waitingText), l, q, n⟩ := by
  induction k with
  | zero =>
    intro a c w
    exact updateIndexBody_pointed i a c st w l q n
  | succ k ih =>
    intro a c w
    rw [List.replicate_succ, run_cons]
    show run updateIndexBody _ (updateIndexBody _) = _
    rw [updateIndexBody_pointed, ih]
    cases w <;> simp <;> omega

theorem deliver_pointed (i : Nat) (a : Bool) (c : Nat) (st : Bool) (w : Option QString)
    (l : List Nat) (q n : Nat) :
    next updateIndexBody ⟨[⟨i, a, c, st⟩], some i, w, l, q + 1, n⟩ Step.deliver
      = ⟨[⟨i, true, c + 1, st⟩], some i, w.map (fun _ => waitingText), l, q, n⟩ := by
  rw [next_deliver _ _ (Nat.succ_ne_zero q)]
  exact updateIndexBody_pointed i a c st w l q n

theorem delivers_pointed (k i : Nat) (st : Bool) (l : List Nat) (n : Nat) :
    ∀ (a : Bool) (c : Nat) (w : Option QString),
      run updateIndexBody (List.replicate (k + 1) Step.deliver)
          ⟨[⟨i, a, c, st⟩], some i, w, l, k + 1, n⟩
        = ⟨[⟨i, true, c + (k + 1), st⟩], some i, w.map (fun _ => waitingText), l, 0, n⟩ := by
  induction k with
  | zero =>
    intro a c w
    exact deliver_pointed i a c st w l 0 n
  | succ k ih =>
    intro a c w
    rw [List.replicate_succ, run_cons, deliver_pointed, ih]
    cases w <;> simp <;> omega

theorem restartScenario_body (w : Option QString) (m : Nat) :
    run updateIndexBody (restartScenario (m + 2)) (firstRun updateIndexBody w)
      = ⟨[⟨1, true, m + 1, w.isSome⟩], some 1, w.map (fun _ => waitingText), [0, 1], 0, 2⟩ := by
  have h0 : firstRun updateIndexBody w = ⟨[⟨0, false, 0, w.isSome⟩], some 0, w, [0], 0, 1⟩ := by
    show updateIndexBody (init w) = _
    rw [updateIndexBody_idle _ rfl]
    rfl
  have h1 : destroyed 0 ⟨[⟨0, true, 0 + (m + 1 + 1), w.isSome⟩], some 0,
        w.map (fun _ => waitingText), [0], 0, 1⟩
      = ⟨[], none, w.map (fun _ => waitingText), [0], m + 1 + 1, 1⟩ := by
    simp [destroyed]
  have h2 : next updateIndexBody
        ⟨[], none, w.map (fun _ => waitingText), [0], m + 1 + 1, 1⟩ Step.deliver
      = ⟨[⟨1, false, 0, w.isSome⟩], some 1, w.map (fun _ => waitingText), [0, 1], m + 1, 2⟩ := by
    rw [next_deliver _ _ (Nat.succ_ne_zero _), updateIndexBody_idle _ rfl]
    cases w <;> rfl
  unfold restartScenario
  rw [run_append, run_append, h0, calls_pointed (m + 1), run_cons, run_nil, next_teardown,
    h1, List.replicate_succ, run_cons, h2, delivers_pointed m]
  cases w <;> simp

theorem restartScenario_once (w : Option QString) :
    run updateIndexBody (restartScenario 1) (firstRun updateIndexBody w)
      = ⟨[⟨1, false, 0, w.isSome⟩], some 1, w.map (fun _ => waitingText), [0, 1], 0, 2⟩ := by
  have h0 : firstRun updateIndexBody w = ⟨[⟨0, false, 0, w.isSome⟩], some 0, w, [0], 0, 1⟩ := by
    show updateIndexBody (init w) = _
    rw [updateIndexBody_idle _ rfl]
    rfl
  have h1 : destroyed 0 ⟨[⟨0, true, 0 + (0 + 1), w.isSome⟩], some 0,
        w.map (fun _ => waitingText), [0], 0, 1⟩
      = ⟨[], none, w.map (fun _ => waitingText), [0], 0 + 1, 1⟩ := by
    simp [destroyed]
  unfold restartScenario
  rw [run_append, run_append, h0, calls_pointed 0, run_cons, run_nil, next_teardown, h1,
    List.replicate_succ, run_cons, next_deliver _ _ (Nat.succ_ne_zero _),
    updateIndexBody_idle _ rfl]
  cases w <;> rfl

end IndexerHost

/-- C6 (the code at the failing inputs): in both extensions, after two or more
calls of `updateIndex` while the first indexer runs, its destruction and the
delivery of all queued calls, one new indexer (identity 1) has been started,
and it has been aborted by those deliveries, with its `destroyed` signal
connected to `updateIndex` once for every queued call but the first.  After
two calls, the destruction of that second indexer and one more delivery start
a third one. -/
theorem updateIndex_queued_calls_abort_new_run :
    (∀ (w : Option QString) (m : Nat),
      IndexerHost.run Applications.Extension.updateIndex (restartScenario (m + 2))
          (firstRun Applications.Extension.updateIndex w)
        = ⟨[⟨1, true, m + 1, w.isSome⟩], some 1, w.map (fun _ => waitingText), [0, 1], 0, 2⟩
      ∧ IndexerHost.run ChromeBookmarks.Extension.updateIndex (restartScenario (m + 2))
          (firstRun ChromeBookmarks.Extension.updateIndex w)
        = ⟨[⟨1, true, m + 1, w.isSome⟩], some 1, w.map (fun _ => waitingText), [0, 1], 0, 2⟩)
    ∧ (IndexerHost.run Applications.Extension.updateIndex
          (restartScenario 2 ++ [IndexerHost.Step.teardown 1, IndexerHost.Step.deliver])
          (firstRun Applications.Extension.updateIndex none)).started = [0, 1, 2]
    ∧ (IndexerHost.run ChromeBookmarks.Extension.updateIndex
          (restartScenario 2 ++ [IndexerHost.Step.teardown 1, IndexerHost.Step.deliver])
          (firstRun ChromeBookmarks.Extension.updateIndex none)).started = [0, 1, 2] :=
  ⟨fun w m => ⟨IndexerHost.restartScenario_body w m, IndexerHost.restartScenario_body w m⟩,
    by decide, by decide⟩

/-! ## Query handling and the index lock -/

theorem matchesAdded_append {Item : Type} (t u : List (IndexEvent Item)) :
    matchesAdded (t ++ u) = matchesAdded t ++ matchesAdded u := by
  induction t with
  | nil => rfl
  | cons e rest ih => cases e <;> simp [matchesAdded, ih]

theorem searchesDone_append {Item : Type} (t u : List (IndexEvent Item)) :
    searchesDone (t ++ u) = searchesDone t ++ searchesDone u := by
  induction t with
  | nil => rfl
  | cons e rest ih => cases e <;> simp [searchesDone, ih]

theorem addMatches_eq {Item : Type} (items : List Item) (t : List (IndexEvent Item)) :
    addMatches items t = t ++ items.map (fun obj => IndexEvent.addMatch obj 0) := by
  induction items generalizing t with
  | nil => simp [addMatches]
  | cons obj rest ih => simp [addMatches, ih]

theorem matchesAdded_map {Item : Type} (items : List Item) :
    matchesAdded (items.map (fun obj => IndexEvent.addMatch obj 0))
      = items.map (fun obj => (obj, (0 : Int))) := by
  induction items with
  | nil => rfl
  | cons obj rest ih => simp [matchesAdded, ih]

theorem searchesDone_map {Item : Type} (items : List Item) :
    searchesDone (items.map (fun obj => IndexEvent.addMatch obj 0)) = [] := by
  induction items with
  | nil => rfl
  | cons obj rest ih => simp [searchesDone, ih]

theorem handleQueryBody_matches {Item : Type} (toLower : QString → QString)
    (search : QString → List Item) (searchTerm : QString) (t : List (IndexEvent Item)) :
    matchesAdded (handleQueryBody toLower search searchTerm t)
        = matchesAdded t ++ (search (toLower searchTerm)).map (fun obj => (obj, (0 : Int)))
    ∧ searchesDone (handleQueryBody toLower search searchTerm t)
        = searchesDone t ++ [toLower searchTerm] := by
  simp [handleQueryBody, addMatches_eq, matchesAdded_append, searchesDone_append,
    matchesAdded_map, searchesDone_map, matchesAdded, searchesDone]

/-- C7: in both extensions `handleQuery` searches the offline index once, with
the lower-cased search term, and calls `addMatch` once for every returned
item, in the order of the result and with score 0, and not otherwise; an empty
result adds no match. -/
theorem handleQuery_adds_search_result {Item : Type} (toLower : QString → QString)
    (search : QString → List Item) (searchTerm : QString) (t : List (IndexEvent Item)) :
    (matchesAdded (Applications.Extension.handleQuery toLower search searchTerm t)
        = matchesAdded t ++ (search (toLower searchTerm)).map (fun obj => (obj, (0 : Int)))
      ∧ searchesDone (Applications.Extension.handleQuery toLower search searchTerm t)
        = searchesDone t ++ [toLower searchTerm])
    ∧ (matchesAdded (ChromeBookmarks.Extension.handleQuery toLower search searchTerm t)
        = matchesAdded t ++ (search (toLower searchTerm)).map (fun obj => (obj, (0 : Int)))
      ∧ searchesDone (ChromeBookmarks.Extension.handleQuery toLower search searchTerm t)
        = searchesDone t ++ [toLower searchTerm]) :=
  ⟨handleQueryBody_matches toLower search searchTerm t,
    handleQueryBody_matches toLower search searchTerm t⟩

theorem accessesLocked_addMatches {Item : Type} (items : List Item) :
    ∀ (held : Bool), accessesLocked held (items.map (fun obj => IndexEvent.addMatch obj 0))
      = true := by
  induction items with
  | nil => intro held; rfl
  | cons obj rest ih => intro held; simpa [accessesLocked] using ih held

/-- C9 (the code at the failing input): starting with the index lock free,
`setFuzzy` of the bookmarks extension writes the fuzzy flag with the lock
held, as both `handleQuery` functions search, but `setFuzzy` of the
applications extension writes the flag without taking the lock. -/
theorem setFuzzy_applications_unlocked {Item : Type} (id : QString) (b : Bool) :
    accessesLocked false (@Applications.Extension.setFuzzy Item id b []) = false
    ∧ accessesLocked false (@ChromeBookmarks.Extension.setFuzzy Item id b []) = true
    ∧ (∀ (toLower : QString → QString) (search : QString → List Item) (term : QString),
        accessesLocked false (Applications.Extension.handleQuery toLower search term []) = true
        ∧ accessesLocked false (ChromeBookmarks.Extension.handleQuery toLower search term [])
          = true) := by
  refine ⟨rfl, rfl, fun toLower search term => ?_⟩
  have h : accessesLocked false (handleQueryBody toLower search term []) = true := by
    simp [handleQueryBody, addMatches_eq, accessesLocked, accessesLocked_addMatches]
  exact ⟨h, h⟩

/-! ## The settings and the invariant of the root list -/

theorem addDir_writes_settings (fs : QString → QFileInfo) (d : QString) (s : Extension)
    (hc : s.settingsConnected = true) (h : (addDir fs d s).rootDirs_ ≠ s.rootDirs_) :
    (addDir fs d s).settingsPaths = some (addDir fs d s).rootDirs_ := by
  by_cases he : (fs d).exists = true
  · by_cases hd : (fs d).isDir = true
    · by_cases hn : (fs d).absoluteFilePath ∈ s.rootDirs_
      · rw [addDir_alreadyIndexed fs d s he hd hn] at h
        exact absurd rfl h
      · cases hf : s.rootDirs_.find? (fun p => (fs d).absoluteFilePath.startsWith (p ++ ['/'])) with
        | none =>
          rw [addDir_added fs d s he hd hn hf]
          simp [emitRootDirsChanged, hc]
        | some p =>
          rw [addDir_subdirectory fs d s he hd hn p hf] at h
          exact absurd rfl h
    · rw [addDir_notADirectory fs d s he (by simpa using hd)] at h
      exact absurd rfl h
  · rw [addDir_notFound fs d s (by simpa using he)] at h
    exact absurd rfl h

theorem removeDir_writes_settings (fs : QString → QFileInfo) (d : QString) (s : Extension)
    (hc : s.settingsConnected = true) (h : (removeDir fs d s).rootDirs_ ≠ s.rootDirs_) :
    (removeDir fs d s).settingsPaths = some (removeDir fs d s).rootDirs_ := by
  by_cases hn : (fs d).absoluteFilePath ∈ s.rootDirs_
  · simp [removeDir, hn, emitRootDirsChanged, hc]
  · simp [removeDir, hn] at h

/-- C8 (the code at the failing input): on a constructed extension whose root
list and settings hold `/opt`, `restorePaths` with no existing standard
location empties the root list, emits nothing and leaves `/opt` in the
settings; `removeDir` of `/opt` in the same state writes the empty list. -/
theorem restorePaths_clears_without_writing :
    (restorePaths sampleFs
        ["/home/user/.local/share/applications".toList, "/usr/local/share/applications".toList]
        (constructed ["/opt".toList])).rootDirs_ = []
    ∧ (restorePaths sampleFs
        ["/home/user/.local/share/applications".toList, "/usr/local/share/applications".toList]
        (constructed ["/opt".toList])).settingsPaths = some ["/opt".toList]
    ∧ (restorePaths sampleFs
        ["/home/user/.local/share/applications".toList, "/usr/local/share/applications".toList]
        (constructed ["/opt".toList])).rootDirsChanged = []
    ∧ (removeDir sampleFs "/opt".toList (constructed ["/opt".toList])).settingsPaths
        = some [] := by
  decide

theorem rootsSeparate_filter (dirs : List QString) (f : QString → Bool)
    (h : RootsSeparate dirs) : RootsSeparate (dirs.filter f) :=
  ⟨h.1.filter f, fun p hp q hq => h.2 p (List.mem_of_mem_filter hp) q (List.mem_of_mem_filter hq)⟩

theorem rootsSeparate_addDir (fs : QString → QFileInfo) (d : QString) (s : Extension)
    (h : RootsSeparate s.rootDirs_) : RootsSeparate (addDir fs d s).rootDirs_ := by
  by_cases he : (fs d).exists = true
  · by_cases hd : (fs d).isDir = true
    · by_cases hn : (fs d).absoluteFilePath ∈ s.rootDirs_
      · rw [addDir_alreadyIndexed fs d s he hd hn]
        exact h
      · cases hf : s.rootDirs_.find? (fun p => (fs d).absoluteFilePath.startsWith (p ++ ['/'])) with
        | some p =>
          rw [addDir_subdirectory fs d s he hd hn p hf]
          exact h
        | none =>
          rw [addDir_added fs d s he hd hn hf]
          show RootsSeparate ((eraseSubDirs (fs d).absoluteFilePath s.rootDirs_).1
            ++ [(fs d).absoluteFilePath])
          rw [eraseSubDirs_fst]
          have hk := rootsSeparate_filter s.rootDirs_
            (fun r => !(r.startsWith ((fs d).absoluteFilePath ++ ['/']))) h
          have hsub : ∀ r ∈ s.rootDirs_,
              (fs d).absoluteFilePath.startsWith (r ++ ['/']) = false := by
            intro r hr
            have := (List.find?_eq_none.1 hf) r hr
            simpa using this
          constructor
          · rw [List.nodup_append]
            refine ⟨hk.1, List.nodup_singleton _, ?_⟩
            intro x hx hx2
            rw [List.mem_singleton] at hx2
            subst hx2
            exact hn (List.mem_of_mem_filter hx)
          · intro p hp q hq
            rw [List.mem_append, List.mem_singleton] at hp hq
            rcases hp with hp | hp <;> rcases hq with hq | hq
            · exact hk.2 p hp q hq
            · subst hq
              exact hsub p (List.mem_of_mem_filter hp)
            · subst hp
              have := (List.mem_filter.1 hq).2
              simpa using this
            · subst hp
              subst hq
              exact startsWith_self_slash _
    · rw [addDir_notADirectory fs d s he (by simpa using hd)]
      exact h
  · rw [addDir_notFound fs d s (by simpa using he)]
    exact h

theorem rootsSeparate_removeDir (fs : QString → QFileInfo) (d : QString) (s : Extension)
    (h : RootsSeparate s.rootDirs_) : RootsSeparate (removeDir fs d s).rootDirs_ := by
  by_cases hn : (fs d).absoluteFilePath ∈ s.rootDirs_
  · have he : (removeDir fs d s).rootDirs_
        = s.rootDirs_.filter (fun p => p != (fs d).absoluteFilePath) := by
      simp [removeDir, hn, emitRootDirsChanged]
    rw [he]
    exact rootsSeparate_filter _ _ h
  · have he : removeDir fs d s = s := by simp [removeDir, hn]
    rw [he]
    exact h

/-- C10: a root list without duplicates and without an entry that begins with
another entry followed by a slash is still such a list after any call of
`addDir`, whatever the path and the answers of the file system, and after any
call of `removeDir`. -/
theorem rootDirs_stay_separate (fs : QString → QFileInfo) (d : QString) (s : Extension)
    (h : RootsSeparate s.rootDirs_) :
    RootsSeparate (addDir fs d s).rootDirs_ ∧ RootsSeparate (removeDir fs d s).rootDirs_ :=
  ⟨rootsSeparate_addDir fs d s h, rootsSeparate_removeDir fs d s h⟩

/-- C10 at the roots `/usr/share/applications` and `/opt`, adding
`/usr/share` and removing `/opt`. -/
theorem rootDirs_stay_separate_witness :
    RootsSeparate ["/usr/share/applications".toList, "/opt".toList]
    ∧ RootsSeparate ["/opt".toList, "/usr/share".toList]
    ∧ RootsSeparate ["/usr/share/applications".toList] :=
  have h0 : RootsSeparate ["/usr/share/applications".toList, "/opt".toList] := by
    unfold RootsSeparate
    decide
  have h := rootDirs_stay_separate sampleFs "/usr/share".toList
    (constructed ["/usr/share/applications".toList, "/opt".toList]) h0
  have h2 := rootDirs_stay_separate sampleFs "/opt".toList
    (constructed ["/usr/share/applications".toList, "/opt".toList]) h0
  ⟨h0, h.1, h2.2⟩

/-! ## The update delay -/

/-- C11 (the code as it is): the constant `UPDATE_DELAY` has type `bool`, so
its initialiser 60000 is stored as `true`, and the constructor sets the
interval of the update delay timer to 1 millisecond, not to 60000. -/
theorem updateDelay_interval_is_one (updateDelayTimer_ : QTimer) :
    Applications.Extension.UPDATE_DELAY = true
    ∧ (Applications.Extension.ctorUpdateDelayTimer updateDelayTimer_).interval = 1
    ∧ (Applications.Extension.ctorUpdateDelayTimer updateDelayTimer_).interval ≠ 60000
    ∧ (Applications.Extension.ctorUpdateDelayTimer updateDelayTimer_).singleShot = true := by
  refine ⟨by decide, ?_, ?_, rfl⟩
  · show intOfBool Applications.Extension.UPDATE_DELAY = 1
    decide
  · show intOfBool Applications.Extension.UPDATE_DELAY ≠ 60000
    decide

/-! ## Removing a root directory -/

theorem removeDir_absent (fs : QString → QFileInfo) (d : QString) (s : Extension)
    (h : (fs d).absoluteFilePath ∉ s.rootDirs_) : removeDir fs d s = s := by
  simp [removeDir, h]

theorem removeDir_present (fs : QString → QFileInfo) (d : QString) (s : Extension)
    (h : (fs d).absoluteFilePath ∈ s.rootDirs_) :
    removeDir fs d s = emitRootDirsChanged
      { s with rootDirs_ := s.rootDirs_.filter (fun p => p != (fs d).absoluteFilePath) } := by
  simp [removeDir, h]

theorem filter_ne_of_not_mem (a : QString) (l : List QString) (h : a ∉ l) :
    l.filter (fun p => p != a) = l := by
  rw [List.filter_eq_self]
  intro p hp
  have : p ≠ a := fun e => h (e ▸ hp)
  simpa using this

theorem filter_bne_eq (a : QString) (l : List QString) :
    l.filter (fun p => p != a) = l.filter (fun p => decide (p ≠ a)) := by
  apply List.filter_congr
  intro p _
  by_cases h : p = a <;> simp [h]

theorem addDir_appended_not_mem (fs : QString → QFileInfo) (d : QString) (s : Extension)
    (h : (addDir fs d s).rootDirs_ = s.rootDirs_ ++ [(fs d).absoluteFilePath]) :
    (fs d).absoluteFilePath ∉ s.rootDirs_ := by
  intro hn
  by_cases he : (fs d).exists = true
  · by_cases hd : (fs d).isDir = true
    · rw [addDir_alreadyIndexed fs d s he hd hn] at h
      have hl := congrArg List.length h
      simp [exec] at hl
    · rw [addDir_notADirectory fs d s he (by simpa using hd)] at h
      have hl := congrArg List.length h
      simp [exec] at hl
  · rw [addDir_notFound fs d s (by simpa using he)] at h
    have hl := congrArg List.length h
    simp [exec] at hl

/-- C12: `removeDir` with absolute path `a`.  When `a` is not a root, nothing
changes and nothing is emitted.  When it is, the new root list is the old one
without the entries equal to `a`, the others in their old order, `a` is no
longer a root, and `rootDirsChanged` is emitted once, with the new list.  And
when `addDir` of a path has appended its absolute form without erasing any
root, `removeDir` of the same path gives back the list from before. -/
theorem removeDir_removes_root (fs : QString → QFileInfo) (d : QString) (s : Extension) :
    ((fs d).absoluteFilePath ∉ s.rootDirs_ → removeDir fs d s = s)
    ∧ ((fs d).absoluteFilePath ∈ s.rootDirs_ →
        (removeDir fs d s).rootDirs_
          = s.rootDirs_.filter (fun p => decide (p ≠ (fs d).absoluteFilePath))
        ∧ (fs d).absoluteFilePath ∉ (removeDir fs d s).rootDirs_
        ∧ (removeDir fs d s).rootDirsChanged
          = s.rootDirsChanged
            ++ [s.rootDirs_.filter (fun p => decide (p ≠ (fs d).absoluteFilePath))])
    ∧ ((addDir fs d s).rootDirs_ = s.rootDirs_ ++ [(fs d).absoluteFilePath] →
        (removeDir fs d (addDir fs d s)).rootDirs_ = s.rootDirs_) := by
  refine ⟨removeDir_absent fs d s, fun h => ?_, fun h => ?_⟩
  · rw [removeDir_present fs d s h]
    refine ⟨?_, ?_, ?_⟩
    · exact filter_bne_eq _ _
    · simp [emitRootDirsChanged, List.mem_filter]
    · show s.rootDirsChanged ++ [s.rootDirs_.filter (fun p => p != (fs d).absoluteFilePath)] = _
      rw [filter_bne_eq]
  · have hn := addDir_appended_not_mem fs d s h
    have hm : (fs d).absoluteFilePath ∈ (addDir fs d s).rootDirs_ := by
      rw [h]
      simp
    rw [removeDir_present fs d (addDir fs d s) hm]
    show (addDir fs d s).rootDirs_.filter (fun p => p != (fs d).absoluteFilePath) = s.rootDirs_
    rw [h, List.filter_append, filter_ne_of_not_mem _ _ hn]
    simp

/-- C12 at concrete roots: removing the missing `/usr` changes nothing,
removing `/opt` from `/opt`, `/usr`, `/opt` leaves `/usr`, and adding then
removing `/usr/share` gives back the root `/opt`. -/
theorem removeDir_removes_root_witness :
    removeDir sampleFs "/usr".toList (constructed ["/opt".toList]) = constructed ["/opt".toList]
    ∧ (removeDir sampleFs "/opt".toList
        (constructed ["/opt".toList, "/usr".toList, "/opt".toList])).rootDirs_ = ["/usr".toList]
    ∧ (removeDir sampleFs "/usr/share".toList
        (addDir sampleFs "/usr/share".toList (constructed ["/opt".toList]))).rootDirs_
        = ["/opt".toList] :=
  ⟨(removeDir_removes_root sampleFs "/usr".toList (constructed ["/opt".toList])).1 (by decide),
   ((removeDir_removes_root sampleFs "/opt".toList
      (constructed ["/opt".toList, "/usr".toList, "/opt".toList])).2.1 (by decide)).1.trans
      (by decide),
   (removeDir_removes_root sampleFs "/usr/share".toList (constructed ["/opt".toList])).2.2
      (by decide)⟩
